import Mathlib

/-!
Verification development for the YClip backend service (`main.py`).

The service is a single FastAPI handler `analyze_video` plus a health route.
We shallowly embed the handler's own logic:

* the transport selector (`if request.video_url: ... elif request.video_base64: ... else ...`,
  lines 134-188), using Python string truthiness;
* the upload/poll branch (lines 144-185) including the scratch-file lifecycle
  and the bare-`except` remote cleanup;
* the unbounded polling loop (lines 158-162);
* the outermost `except Exception` handler (lines 219-221) which converts any
  exception `e` into `HTTPException(status_code=500, detail=str(e))`;
* the response normalizer (lines 205-217): `text.replace("```json", "").replace("```", "").strip()`,
  `json.loads`, and the dict/list/other dispatch, followed by pydantic coercion
  into `AnalyzeResponse`.

External collaborators (the Gemini SDK calls, `base64.b64decode`, the scratch
file name chosen by `tempfile`) are oracles supplied by an `Env` record; the
handler's own control flow, cleanup placement and normalization are translated
from the source.  Machine-level caveats of the model, noted where relevant:
`json.loads` is embedded for the value forms the service manipulates (objects,
arrays, strings with standard escapes, integers, booleans, null); float
literals and lone surrogates are outside the model.  `str.strip()` is modelled
over Python's ASCII whitespace.
-/

deriving instance DecidableEq for Except

/-- A backtick character (written via its code point to keep source literals tidy). -/
def btChar : Char := Char.ofNat 96

/-- `"```json"` as a character list: the first pattern removed on line 209. -/
def fjson : List Char := [btChar, btChar, btChar, 'j', 's', 'o', 'n']

/-- `"```"` as a character list: the second pattern removed on line 209. -/
def fence : List Char := [btChar, btChar, btChar]

/-- Fuel-driven core of Python `str.replace(pat, "")`: scan left to right,
at each position either remove one occurrence of `pat` and continue after it,
or keep the character.  This is exactly CPython's non-overlapping global
replace restricted to an empty replacement.  Fuel `s.length` always suffices
because each step consumes at least one character. -/
def pyReplaceDelF (pat : List Char) : Nat → List Char → List Char
  | 0, s => s
  | f + 1, s =>
    if 0 < pat.length ∧ pat.isPrefixOf s then
      pyReplaceDelF pat f (s.drop pat.length)
    else
      match s with
      | [] => []
      | c :: cs => c :: pyReplaceDelF pat f cs

/-- Python `s.replace(pat, "")` (line 209 uses it twice). -/
def pyReplaceDel (pat s : List Char) : List Char := pyReplaceDelF pat s.length s

/-- Python ASCII whitespace (space, tab, newline, carriage return, vertical
tab, form feed), as stripped by `str.strip()`. -/
def pySpaceChars : List Char :=
  [Char.ofNat 32, Char.ofNat 9, Char.ofNat 10, Char.ofNat 13, Char.ofNat 11, Char.ofNat 12]

def isPySpace (c : Char) : Bool := pySpaceChars.contains c

/-- Remove trailing `isPySpace` characters (the right half of `str.strip()`). -/
def dropTrail : List Char → List Char
  | [] => []
  | c :: cs =>
    match dropTrail cs with
    | [] => if isPySpace c then [] else [c]
    | r => c :: r

/-- Python `str.strip()`: drop leading and trailing whitespace. -/
def pyStrip (l : List Char) : List Char := dropTrail (l.dropWhile isPySpace)

/-- Line 209: `text.replace("```json", "").replace("```", "").strip()`. -/
def cleanText (s : List Char) : List Char :=
  pyStrip (pyReplaceDel fence (pyReplaceDel fjson s))

/-- Parsed JSON values as produced by `json.loads` (floats not modelled; the
service's prompt requests only strings inside objects/arrays). -/
inductive Json where
  | null
  | bool (b : Bool)
  | num (n : Int)
  | str (s : String)
  | arr (elems : List Json)
  | obj (kvs : List (String × Json))

/-- JSON tokens. -/
inductive Tok where
  | lbrace | rbrace | lbrack | rbrack | colon | comma
  | str (s : String)
  | num (n : Int)
  | bool (b : Bool)
  | null
deriving DecidableEq

/-- Hex digit value, for `\uXXXX` escapes. -/
def hexVal (c : Char) : Option Nat :=
  if '0' ≤ c ∧ c ≤ '9' then some (c.toNat - 48)
  else if 'a' ≤ c ∧ c ≤ 'f' then some (c.toNat - 87)
  else if 'A' ≤ c ∧ c ≤ 'F' then some (c.toNat - 55)
  else none

/-- Single-character JSON escape table (`\"`, `\\`, `\/`, `\b`, `\f`, `\n`,
`\r`, `\t`). -/
def escPairs : List (Char × Char) :=
  [('"', '"'), ('\\', '\\'), ('/', '/'), ('b', Char.ofNat 8), ('f', Char.ofNat 12),
   ('n', Char.ofNat 10), ('r', Char.ofNat 13), ('t', Char.ofNat 9)]

def escChar (c : Char) : Option Char :=
  (escPairs.find? (fun p => p.1 == c)).map (fun p => p.2)

/-- Lex the body of a JSON string (after the opening quote); returns the
decoded characters and the remaining input after the closing quote. -/
def lexStrChars : List Char → Option (List Char × List Char)
  | [] => none
  | '"' :: rest => some ([], rest)
  | '\\' :: 'u' :: h1 :: h2 :: h3 :: h4 :: rest =>
    match hexVal h1, hexVal h2, hexVal h3, hexVal h4 with
    | some a, some b, some c, some d =>
      match lexStrChars rest with
      | some (s, r) => some (Char.ofNat (((a * 16 + b) * 16 + c) * 16 + d) :: s, r)
      | none => none
    | _, _, _, _ => none
  | '\\' :: e :: rest =>
    match escChar e with
    | some c =>
      match lexStrChars rest with
      | some (s, r) => some (c :: s, r)
      | none => none
    | none => none
  | c :: rest =>
    if c.toNat < 32 then none
    else
      match lexStrChars rest with
      | some (s, r) => some (c :: s, r)
      | none => none

/-- Decimal digits to a natural number. -/
def digitsToNat (ds : List Char) : Nat := List.foldl (fun a c => a * 10 + (c.toNat - 48)) 0 ds

/-- True when the character starting `rest` would extend a number into a float
or exponent literal (outside the model). -/
def headFloatish : List Char → Bool
  | c :: _ => c == '.' || c == 'e' || c == 'E'
  | [] => false

/-- JSON lexer (whitespace-insensitive between tokens, as `json.loads`).
Fuel `length + 1` suffices: every step consumes at least one character. -/
def lexJson : Nat → List Char → Except String (List Tok)
  | 0, _ => .error "lexer fuel exhausted"
  | _ + 1, [] => .ok []
  | f + 1, c :: cs =>
    if [Char.ofNat 32, Char.ofNat 9, Char.ofNat 10, Char.ofNat 13].contains c then lexJson f cs
    else if c == Char.ofNat 123 then (lexJson f cs).map (Tok.lbrace :: ·)
    else if c == Char.ofNat 125 then (lexJson f cs).map (Tok.rbrace :: ·)
    else if c == '[' then (lexJson f cs).map (Tok.lbrack :: ·)
    else if c == ']' then (lexJson f cs).map (Tok.rbrack :: ·)
    else if c == ':' then (lexJson f cs).map (Tok.colon :: ·)
    else if c == ',' then (lexJson f cs).map (Tok.comma :: ·)
    else if c == '"' then
      match lexStrChars cs with
      | some (s, rest) => (lexJson f rest).map (Tok.str (String.mk s) :: ·)
      | none => .error "Unterminated string"
    else if c == 't' then
      match cs with
      | 'r' :: 'u' :: 'e' :: rest => (lexJson f rest).map (Tok.bool true :: ·)
      | _ => .error "Expecting value"
    else if c == 'f' then
      match cs with
      | 'a' :: 'l' :: 's' :: 'e' :: rest => (lexJson f rest).map (Tok.bool false :: ·)
      | _ => .error "Expecting value"
    else if c == 'n' then
      match cs with
      | 'u' :: 'l' :: 'l' :: rest => (lexJson f rest).map (Tok.null :: ·)
      | _ => .error "Expecting value"
    else if c == '-' then
      match cs.span Char.isDigit with
      | (ds, rest) =>
        if ds.isEmpty then .error "Expecting value"
        else if headFloatish rest then .error "float literal outside model"
        else (lexJson f rest).map (Tok.num (-(Int.ofNat (digitsToNat ds))) :: ·)
    else if c.isDigit then
      match (c :: cs).span Char.isDigit with
      | (ds, rest) =>
        if headFloatish rest then .error "float literal outside model"
        else (lexJson f rest).map (Tok.num (Int.ofNat (digitsToNat ds)) :: ·)
    else .error "Expecting value"

/-- Parser mode: a value, the items of an array being accumulated, or the
members of an object being accumulated. -/
inductive PMode where
  | value
  | arrItems (acc : List Json)
  | objItems (acc : List (String × Json))

/-- Recursive-descent JSON parser over tokens, fuel-driven so it is a plain
structural recursion. -/
def parseStep : Nat → PMode → List Tok → Except String (Json × List Tok)
  | 0, _, _ => .error "parser fuel exhausted"
  | f + 1, PMode.value, ts =>
    match ts with
    | Tok.str s :: r => .ok (Json.str s, r)
    | Tok.num n :: r => .ok (Json.num n, r)
    | Tok.bool b :: r => .ok (Json.bool b, r)
    | Tok.null :: r => .ok (Json.null, r)
    | Tok.lbrack :: Tok.rbrack :: r => .ok (Json.arr [], r)
    | Tok.lbrack :: r => parseStep f (PMode.arrItems []) r
    | Tok.lbrace :: Tok.rbrace :: r => .ok (Json.obj [], r)
    | Tok.lbrace :: r => parseStep f (PMode.objItems []) r
    | _ => .error "Expecting value"
  | f + 1, PMode.arrItems acc, ts =>
    match parseStep f PMode.value ts with
    | .error m => .error m
    | .ok (j, rest) =>
      match rest with
      | Tok.comma :: r2 => parseStep f (PMode.arrItems (acc ++ [j])) r2
      | Tok.rbrack :: r2 => .ok (Json.arr (acc ++ [j]), r2)
      | _ => .error "Expecting comma delimiter"
  | f + 1, PMode.objItems acc, ts =>
    match ts with
    | Tok.str k :: Tok.colon :: r =>
      match parseStep f PMode.value r with
      | .error m => .error m
      | .ok (j, rest) =>
        match rest with
        | Tok.comma :: r2 => parseStep f (PMode.objItems (acc ++ [(k, j)])) r2
        | Tok.rbrace :: r2 => .ok (Json.obj (acc ++ [(k, j)]), r2)
        | _ => .error "Expecting comma delimiter"
    | _ => .error "Expecting property name"

/-- `json.loads` on a character list: lex, parse one value, require the rest
to be empty. -/
def parseJson (cs : List Char) : Except String Json :=
  match lexJson (cs.length + 1) cs with
  | .error m => .error m
  | .ok ts =>
    match parseStep (3 * ts.length + 3) PMode.value ts with
    | .error m => .error m
    | .ok (j, rest) => if rest = [] then .ok j else .error "Extra data"

/-- Python dict lookup on the parsed object pairs; `json.loads` keeps the
last occurrence of a duplicated key, so the lookup prefers later pairs. -/
def dictGet (kvs : List (String × Json)) (k : String) : Option Json :=
  match kvs with
  | [] => none
  | (k', v) :: rest =>
    match dictGet rest k with
    | some r => some r
    | none => if k' = k then some v else none

/-- `ClipResponse` (lines 30-33): three required string fields. -/
structure ClipResponse where
  start : String
  «end» : String
  description : String
deriving DecidableEq

/-- Pydantic coercion of one clip element: an object with string values under
the three required keys (extra keys are ignored); anything else is a
validation error. -/
def coerceClip : Json → Except String ClipResponse
  | Json.obj kvs =>
    match dictGet kvs "start", dictGet kvs "end", dictGet kvs "description" with
    | some (Json.str s), some (Json.str e), some (Json.str d) => .ok ⟨s, e, d⟩
    | _, _, _ => .error "validation error for AnalyzeResponse: invalid clip"
  | _ => .error "validation error for AnalyzeResponse: clip must be an object"

/-- Pydantic coercion of the `clips` payload: must be a list, each element a
valid clip. -/
def coerceClips : Json → Except String (List ClipResponse)
  | Json.arr l => l.mapM coerceClip
  | _ => .error "validation error for AnalyzeResponse: clips must be a list"

/-- Lines 212-217: dict containing `"clips"` → use that value; list → use it
directly; anything else → empty clip list. -/
def normalizeParsed : Json → Except String (List ClipResponse)
  | Json.obj kvs =>
    match dictGet kvs "clips" with
    | some v => coerceClips v
    | none => .ok []
  | Json.arr l => coerceClips (Json.arr l)
  | _ => .ok []

/-- Lines 206-217: clean the reply text, `json.loads` it, and normalize. -/
def normalizeText (s : List Char) : Except String (List ClipResponse) :=
  match parseJson (cleanText s) with
  | .error m => .error m
  | .ok data => normalizeParsed data

/-! ## The request handler -/

/-- `AnalyzeRequest` (lines 26-28): two optional string fields. -/
structure AnalyzeRequest where
  video_url : Option String
  video_base64 : Option String
deriving DecidableEq

/-- Python truthiness of an `Optional[str]`: `None` and `""` are falsy. -/
def pyTruthy : Option String → Bool
  | none => false
  | some s => !s.isEmpty

/-- The three branches of the `if`/`elif`/`else` on lines 134-188, in source
order: the URL check comes first, so it wins when both fields are truthy. -/
inductive Transport where
  | uri (u : String)
  | upload (b64 : String)
  | missing
deriving DecidableEq

/-- Transport selection exactly as written in the handler. -/
def selectTransport (req : AnalyzeRequest) : Transport :=
  if pyTruthy req.video_url then Transport.uri (req.video_url.getD "")
  else if pyTruthy req.video_base64 then Transport.upload (req.video_base64.getD "")
  else Transport.missing

/-- A Python exception as seen by the outer handler: either an
`HTTPException` (whose `str()` is `"{status_code}: {detail}"`, per Starlette)
or any other exception carrying its `str()`. -/
inductive PyErr where
  | http (status : Nat) (detail : String)
  | other (msg : String)
deriving DecidableEq

/-- `str(e)` for an exception value. -/
def PyErr.str : PyErr → String
  | .http c d => toString c ++ ": " ++ d
  | .other m => m

/-- The handle returned by `gemini_client.files.upload` (name, uri, mime_type). -/
structure FileHandle where
  name : String
  uri : String
  mime_type : String
deriving DecidableEq

/-- `types.Part.from_uri(file_uri=..., mime_type=...)`. -/
structure ContentPart where
  file_uri : String
  mime_type : String
deriving DecidableEq

/-- Observable side effects of one request, in order of occurrence. -/
inductive Event where
  | writeTmp (path : String)
  | upload (path : String)
  | sleep (secs : Nat)
  | getState
  | unlinkLocal (path : String)
  | deleteRemote (name : String)
  | mkUriRef (uri mime : String)
  | generate
deriving DecidableEq

/-- Oracle for everything outside the handler's own code: the result of
`base64.b64decode` on this request's payload, the scratch path chosen by
`tempfile`, the upload call's outcome, the provider state-name sequence
(`stateAt 0` is the state right after upload, `stateAt (n+1)` the result of
the `(n+1)`-th `files.get`), whether the best-effort `files.delete` raises
(the handler swallows it either way), and the inference reply for a given
content part. -/
structure Env where
  decodeResult : Except String (List Nat)
  tmpPath : String
  uploadResult : Except String FileHandle
  stateAt : Nat → String
  deleteFails : Bool
  genResult : ContentPart → Except String String

/-- The polling loop of lines 158-162: starting at state index `i`, keep
re-querying while the name is `"PROCESSING"`; return the first index whose
state is something else.  The loop in the source has no bound; `fuel` only
truncates the model, and `none` means the loop is still running after `fuel`
re-queries. -/
def pollFirst (stateAt : Nat → String) : Nat → Nat → Option Nat
  | 0, i => if stateAt i = "PROCESSING" then none else some i
  | f + 1, i => if stateAt i = "PROCESSING" then pollFirst stateAt f (i + 1) else some i

/-- The events of `n` loop iterations: each iteration sleeps exactly 2
seconds (line 161) and re-queries the state (line 162). -/
def pollEvents (n : Nat) : List Event :=
  (List.replicate n [Event.sleep 2, Event.getState]).flatten

/-- Outcome of the upload branch: `none` result means the polling loop never
exited within `fuel`; `tmpOnDisk` records whether the scratch file still
exists. -/
structure BranchOut where
  result : Option (Except PyErr ContentPart)
  trace : List Event
  tmpOnDisk : Bool

/-- Lines 144-185.  The scratch file is written first (lines 149-151); then
inside the `try`, upload, poll, check for `"FAILED"`, build the content
part, `os.unlink` the scratch file (line 173) and best-effort delete the
remote file (lines 176-179, failures swallowed); the `except` handler
(lines 181-185) unlinks the scratch file if it still exists and re-raises. -/
def uploadBranch (env : Env) (fuel : Nat) : BranchOut :=
  match env.uploadResult with
  | .error m =>
    ⟨some (.error (.other m)),
     [Event.writeTmp env.tmpPath, Event.upload env.tmpPath, Event.unlinkLocal env.tmpPath],
     false⟩
  | .ok fh =>
    match pollFirst env.stateAt fuel 0 with
    | none =>
      ⟨none, [Event.writeTmp env.tmpPath, Event.upload env.tmpPath] ++ pollEvents fuel, true⟩
    | some n =>
      if env.stateAt n = "FAILED" then
        ⟨some (.error (.http 500 "Video processing failed")),
         [Event.writeTmp env.tmpPath, Event.upload env.tmpPath] ++ pollEvents n
           ++ [Event.unlinkLocal env.tmpPath],
         false⟩
      else
        ⟨some (.ok ⟨fh.uri, fh.mime_type⟩),
         [Event.writeTmp env.tmpPath, Event.upload env.tmpPath] ++ pollEvents n
           ++ [Event.mkUriRef fh.uri fh.mime_type, Event.unlinkLocal env.tmpPath,
               Event.deleteRemote fh.name],
         false⟩

/-- Result of the handler body before the outer `except` (the `try` of
lines 131-217): either a clip list or the exception that escaped. -/
structure InnerOut where
  result : Option (Except PyErr (List ClipResponse))
  trace : List Event
  tmpOnDisk : Bool
deriving DecidableEq

/-- Lines 190-217: call `generate_content` with the resolved content part and
normalize the reply.  Both a provider error and a parse/validation error
escape as exceptions. -/
def afterPart (env : Env) (part : ContentPart) (tr : List Event) (disk : Bool) : InnerOut :=
  match env.genResult part with
  | .error m => ⟨some (.error (.other m)), tr ++ [Event.generate], disk⟩
  | .ok text =>
    match normalizeText text.data with
    | .error m => ⟨some (.error (.other m)), tr ++ [Event.generate], disk⟩
    | .ok clips => ⟨some (.ok clips), tr ++ [Event.generate], disk⟩

/-- The `try` body of `analyze_video` (lines 131-217). -/
def analyzeInner (env : Env) (req : AnalyzeRequest) (fuel : Nat) : InnerOut :=
  match selectTransport req with
  | Transport.uri u =>
    afterPart env ⟨u, "video/mp4"⟩ [Event.mkUriRef u "video/mp4"] false
  | Transport.upload _ =>
    match env.decodeResult with
    | .error m => ⟨some (.error (.other m)), [], false⟩
    | .ok _ =>
      match uploadBranch env fuel with
      | ⟨none, tr, disk⟩ => ⟨none, tr, disk⟩
      | ⟨some (.error e), tr, disk⟩ => ⟨some (.error e), tr, disk⟩
      | ⟨some (.ok part), tr, disk⟩ => afterPart env part tr disk
  | Transport.missing =>
    ⟨some (.error (.http 400 "Either video_url or video_base64 required")), [], false⟩

/-- The HTTP outcome of a request. -/
inductive HttpOut where
  | ok (clips : List ClipResponse)
  | err (status : Nat) (detail : String)
deriving DecidableEq

/-- Final handler state: `result = none` models a request stuck in the
polling loop. -/
structure HandlerOut where
  result : Option HttpOut
  trace : List Event
  tmpOnDisk : Bool
deriving DecidableEq

/-- `analyze_video` (lines 128-221): the `try` body wrapped by
`except Exception as e: raise HTTPException(status_code=500, detail=str(e))`.
Note the wrapper also catches the handler's own `HTTPException(400)`. -/
def analyze_video (env : Env) (req : AnalyzeRequest) (fuel : Nat) : HandlerOut :=
  match analyzeInner env req fuel with
  | ⟨none, tr, disk⟩ => ⟨none, tr, disk⟩
  | ⟨some (.ok clips), tr, disk⟩ => ⟨some (.ok clips), tr, disk⟩
  | ⟨some (.error e), tr, disk⟩ => ⟨some (.err 500 (PyErr.str e)), tr, disk⟩

/-- The HTTP status of a finished request. -/
def statusOf (h : HandlerOut) : Option Nat :=
  h.result.map fun o =>
    match o with
    | HttpOut.ok _ => 200
    | HttpOut.err c _ => c

/-! ## Recursion equations for the replace model -/

theorem prdF_succ_pos (pat s : List Char) (f : Nat)
    (h : 0 < pat.length ∧ pat.isPrefixOf s) :
    pyReplaceDelF pat (f + 1) s = pyReplaceDelF pat f (s.drop pat.length) := by
  simp only [pyReplaceDelF]
  rw [if_pos h]

theorem prdF_succ_neg (pat : List Char) (c : Char) (cs : List Char) (f : Nat)
    (h : ¬(0 < pat.length ∧ pat.isPrefixOf (c :: cs))) :
    pyReplaceDelF pat (f + 1) (c :: cs) = c :: pyReplaceDelF pat f cs := by
  simp only [pyReplaceDelF]
  rw [if_neg h]

theorem prdF_nil (pat : List Char) : ∀ f, pyReplaceDelF pat f [] = []
  | 0 => rfl
  | f + 1 => by
    simp only [pyReplaceDelF]
    split
    · next h =>
      rcases pat with _ | ⟨a, as⟩
      · simp at h
      · simp [List.isPrefixOf] at h
    · rfl

theorem isPrefixOf_length_le : ∀ p s : List Char, p.isPrefixOf s → p.length ≤ s.length
  | [], _, _ => by simp
  | _ :: _, [], h => by simp [List.isPrefixOf] at h
  | a :: as, b :: bs, h => by
    simp only [List.isPrefixOf, Bool.and_eq_true, beq_iff_eq] at h
    simpa using isPrefixOf_length_le as bs h.2

theorem isPrefixOf_append_ext : ∀ p s t : List Char, p.isPrefixOf s → p.isPrefixOf (s ++ t)
  | [], _, _, _ => by simp [List.isPrefixOf]
  | _ :: _, [], _, h => by simp [List.isPrefixOf] at h
  | a :: as, b :: bs, t, h => by
    simp only [List.isPrefixOf, Bool.and_eq_true, beq_iff_eq] at h
    simp only [List.cons_append, List.isPrefixOf, Bool.and_eq_true, beq_iff_eq]
    exact ⟨h.1, isPrefixOf_append_ext as bs t h.2⟩

theorem prdF_congr (pat : List Char) :
    ∀ f₁ f₂ s, s.length ≤ f₁ → s.length ≤ f₂ →
      pyReplaceDelF pat f₁ s = pyReplaceDelF pat f₂ s := by
  intro f₁
  induction f₁ with
  | zero =>
    intro f₂ s h1 _
    have hs : s = [] := List.eq_nil_of_length_eq_zero (Nat.le_zero.mp h1)
    subst hs
    rw [prdF_nil, prdF_nil]
  | succ f ih =>
    intro f₂ s h1 h2
    rcases s with _ | ⟨c, cs⟩
    · rw [prdF_nil, prdF_nil]
    · rcases f₂ with _ | g
      · simp at h2
      · by_cases h : 0 < pat.length ∧ pat.isPrefixOf (c :: cs)
        · rw [prdF_succ_pos pat (c :: cs) f h, prdF_succ_pos pat (c :: cs) g h]
          apply ih
          · have := isPrefixOf_length_le pat (c :: cs) h.2
            rw [List.length_drop]
            simp only [List.length_cons] at h1 ⊢
            omega
          · have := isPrefixOf_length_le pat (c :: cs) h.2
            rw [List.length_drop]
            simp only [List.length_cons] at h2 ⊢
            omega
        · rw [prdF_succ_neg pat c cs f h, prdF_succ_neg pat c cs g h]
          exact congrArg (c :: ·)
            (ih g cs (by simp only [List.length_cons] at h1; omega)
              (by simp only [List.length_cons] at h2; omega))

theorem prd_nil (pat : List Char) : pyReplaceDel pat [] = [] := rfl

theorem prd_pos (pat s : List Char) (h0 : 0 < pat.length) (hp : pat.isPrefixOf s) :
    pyReplaceDel pat s = pyReplaceDel pat (s.drop pat.length) := by
  unfold pyReplaceDel
  have hsl : 1 ≤ s.length := le_trans h0 (isPrefixOf_length_le pat s hp)
  obtain ⟨k, hk⟩ : ∃ k, s.length = k + 1 := ⟨s.length - 1, by omega⟩
  rw [hk, prdF_succ_pos pat s k ⟨h0, hp⟩]
  apply prdF_congr
  · rw [List.length_drop]
    omega
  · exact le_refl _

theorem prd_neg (pat : List Char) (c : Char) (cs : List Char)
    (hp : ¬ pat.isPrefixOf (c :: cs)) :
    pyReplaceDel pat (c :: cs) = c :: pyReplaceDel pat cs := by
  unfold pyReplaceDel
  rw [show (c :: cs).length = cs.length + 1 from rfl,
    prdF_succ_neg pat c cs cs.length (fun hcon => hp hcon.2)]

theorem drop_append_of_le : ∀ (n : Nat) (l₁ l₂ : List Char), n ≤ l₁.length →
    (l₁ ++ l₂).drop n = l₁.drop n ++ l₂ := by
  intro n
  induction n with
  | zero => intro l₁ l₂ _; simp
  | succ n ih =>
    intro l₁ l₂ h
    rcases l₁ with _ | ⟨a, as⟩
    · simp at h
    · simpa using ih as l₂ (by simpa using h)

/-- No occurrence of `"```json"` can cross from `s` into an appended `"```"`:
the pattern's tail is made of letters while the appended text is backticks. -/
theorem fjson_isPrefixOf_append (s : List Char)
    (h : fjson.isPrefixOf (s ++ fence)) : fjson.isPrefixOf s := by
  rcases s with _ | ⟨a1, _ | ⟨a2, _ | ⟨a3, _ | ⟨a4, _ | ⟨a5, _ | ⟨a6, _ | ⟨a7, rest⟩⟩⟩⟩⟩⟩⟩ <;>
    simp_all [fjson, fence, btChar, List.isPrefixOf]
  exact h

/-- Stage one of line 209 commutes with a trailing `"```"`. -/
theorem prd_fjson_append (s : List Char) :
    pyReplaceDel fjson (s ++ fence) = pyReplaceDel fjson s ++ fence := by
  have main : ∀ n (s : List Char), s.length ≤ n →
      pyReplaceDel fjson (s ++ fence) = pyReplaceDel fjson s ++ fence := by
    intro n
    induction n with
    | zero =>
      intro s hs
      have h0 : s = [] := List.eq_nil_of_length_eq_zero (Nat.le_zero.mp hs)
      subst h0
      decide
    | succ n ih =>
      intro s hs
      by_cases hp : fjson.isPrefixOf s
      · have h7 : 7 ≤ s.length := isPrefixOf_length_le fjson s hp
        rw [prd_pos fjson (s ++ fence) (by decide) (isPrefixOf_append_ext fjson s fence hp),
          prd_pos fjson s (by decide) hp,
          show fjson.length = 7 from rfl,
          drop_append_of_le 7 s fence h7]
        exact ih (s.drop 7) (by rw [List.length_drop]; omega)
      · by_cases hq : fjson.isPrefixOf (s ++ fence)
        · exact absurd (fjson_isPrefixOf_append s hq) hp
        · rcases s with _ | ⟨c, cs⟩
          · decide
          · rw [List.cons_append, prd_neg fjson c (cs ++ fence) hq,
              prd_neg fjson c cs hp, List.cons_append]
            exact congrArg (c :: ·)
              (ih cs (by simp only [List.length_cons] at hs; omega))
  exact main s.length s le_rfl

/-- Stage two of line 209 absorbs a trailing `"```"`. -/
theorem prd_fence_append (s : List Char) :
    pyReplaceDel fence (s ++ fence) = pyReplaceDel fence s := by
  have main : ∀ n (s : List Char), s.length ≤ n →
      pyReplaceDel fence (s ++ fence) = pyReplaceDel fence s := by
    intro n
    induction n with
    | zero =>
      intro s hs
      have h0 : s = [] := List.eq_nil_of_length_eq_zero (Nat.le_zero.mp hs)
      subst h0
      decide
    | succ n ih =>
      intro s hs
      by_cases hp : fence.isPrefixOf s
      · have h3 : 3 ≤ s.length := isPrefixOf_length_le fence s hp
        rw [prd_pos fence (s ++ fence) (by decide) (isPrefixOf_append_ext fence s fence hp),
          prd_pos fence s (by decide) hp,
          show fence.length = 3 from rfl,
          drop_append_of_le 3 s fence h3]
        exact ih (s.drop 3) (by rw [List.length_drop]; omega)
      · by_cases hq : fence.isPrefixOf (s ++ fence)
        · rcases s with _ | ⟨a1, _ | ⟨a2, _ | ⟨a3, r⟩⟩⟩
          · decide
          · simp only [List.cons_append, List.nil_append, fence, btChar,
              List.isPrefixOf, Bool.and_eq_true, beq_iff_eq] at hq
            obtain ⟨e1, -⟩ := hq
            subst e1
            decide
          · simp only [List.cons_append, List.nil_append, fence, btChar,
              List.isPrefixOf, Bool.and_eq_true, beq_iff_eq] at hq
            obtain ⟨e1, e2, -⟩ := hq
            subst e1
            subst e2
            decide
          · exact absurd (by
              simp only [List.cons_append, fence, btChar, List.isPrefixOf,
                Bool.and_eq_true, beq_iff_eq] at hq ⊢
              exact ⟨hq.1, hq.2.1, hq.2.2.1, trivial⟩) hp
        · rcases s with _ | ⟨c, cs⟩
          · exact absurd (by decide : fence.isPrefixOf (([] : List Char) ++ fence)) hq
          · rw [List.cons_append, prd_neg fence c (cs ++ fence) hq, prd_neg fence c cs hp]
            exact congrArg (c :: ·)
              (ih cs (by simp only [List.length_cons] at hs; omega))
  exact main s.length s le_rfl

/-! ## No fence marker survives the cleaning pass -/

/-- Number of leading backticks. -/
def leadTicks : List Char → Nat
  | [] => 0
  | c :: cs => if c = btChar then leadTicks cs + 1 else 0

/-- Computable check: does `"```"` occur as a contiguous substring? -/
def hasFence : List Char → Bool
  | [] => false
  | c :: cs => fence.isPrefixOf (c :: cs) || hasFence cs

/-- Computable check: does `"```json"` occur as a contiguous substring? -/
def hasFJson : List Char → Bool
  | [] => false
  | c :: cs => fjson.isPrefixOf (c :: cs) || hasFJson cs

theorem replicate_bt_isPrefixOf_iff :
    ∀ (k : Nat) (l : List Char), (List.replicate k btChar).isPrefixOf l = true ↔ k ≤ leadTicks l := by
  intro k
  induction k with
  | zero => intro l; simp [List.isPrefixOf]
  | succ k ih =>
    intro l
    rcases l with _ | ⟨c, cs⟩
    · simp [List.replicate_succ, List.isPrefixOf, leadTicks]
    · by_cases hc : c = btChar
      · subst hc
        simp only [List.replicate_succ, List.isPrefixOf, beq_self_eq_true, Bool.true_and,
          leadTicks, eq_self_iff_true, if_true]
        rw [ih cs]
        omega
      · simp only [List.replicate_succ, List.isPrefixOf, Bool.and_eq_true, beq_iff_eq,
          leadTicks, if_neg hc]
        constructor
        · rintro ⟨e, -⟩; exact absurd e.symm hc
        · omega

theorem fence_isPrefixOf_iff (s : List Char) :
    fence.isPrefixOf s = true ↔ 3 ≤ leadTicks s := by
  rw [show fence = List.replicate 3 btChar from rfl, replicate_bt_isPrefixOf_iff]

theorem fence_prefix_shape (s : List Char) (h : fence.isPrefixOf s) :
    s = btChar :: btChar :: btChar :: s.drop 3 := by
  rcases s with _ | ⟨c1, _ | ⟨c2, _ | ⟨c3, r⟩⟩⟩
  · simp [fence, List.isPrefixOf] at h
  · simp [fence, List.isPrefixOf] at h
  · simp [fence, List.isPrefixOf] at h
  · simp only [fence, List.isPrefixOf, Bool.and_eq_true, beq_iff_eq, and_true] at h
    obtain ⟨e1, e2, e3⟩ := h
    subst e1
    subst e2
    subst e3
    rfl

/-- Invariant of the second replace pass: its output contains no `"```"`,
and it does not begin with more backticks than its input did. -/
theorem prd_fence_clean : ∀ n (s : List Char), s.length ≤ n →
    hasFence (pyReplaceDel fence s) = false ∧
      leadTicks (pyReplaceDel fence s) ≤ leadTicks s := by
  intro n
  induction n with
  | zero =>
    intro s hs
    have h0 : s = [] := List.eq_nil_of_length_eq_zero (Nat.le_zero.mp hs)
    subst h0
    exact ⟨rfl, le_refl _⟩
  | succ n ih =>
    intro s hs
    by_cases hp : fence.isPrefixOf s
    · have h3 : 3 ≤ s.length := isPrefixOf_length_le fence s hp
      rw [prd_pos fence s (by decide) hp, show fence.length = 3 from rfl]
      obtain ⟨ihf, ihl⟩ := ih (s.drop 3) (by rw [List.length_drop]; omega)
      refine ⟨ihf, ?_⟩
      have hshape := fence_prefix_shape s hp
      have hlead : leadTicks s = leadTicks (s.drop 3) + 3 := by
        conv_lhs => rw [hshape]
        simp [leadTicks]
      omega
    · rcases s with _ | ⟨c, cs⟩
      · exact ⟨rfl, le_refl _⟩
      · rw [prd_neg fence c cs hp]
        obtain ⟨ihf, ihl⟩ := ih cs (by simp only [List.length_cons] at hs; omega)
        constructor
        · show (fence.isPrefixOf (c :: pyReplaceDel fence cs) || hasFence (pyReplaceDel fence cs)) = false
          rw [ihf, Bool.or_false]
          cases hfb : fence.isPrefixOf (c :: pyReplaceDel fence cs) with
          | false => rfl
          | true =>
            exfalso
            have h1 : 3 ≤ leadTicks (c :: pyReplaceDel fence cs) :=
              (fence_isPrefixOf_iff _).mp hfb
            by_cases hc : c = btChar
            · have h2 : 3 ≤ leadTicks (c :: cs) := by
                simp only [leadTicks, if_pos hc] at h1 ⊢
                omega
              exact hp ((fence_isPrefixOf_iff _).mpr h2)
            · simp only [leadTicks, if_neg hc] at h1
              omega
        · by_cases hc : c = btChar
          · simp [leadTicks, hc]
            omega
          · simp [leadTicks, hc]

theorem hasFence_dropWhile (p : Char → Bool) :
    ∀ l : List Char, hasFence l = false → hasFence (l.dropWhile p) = false := by
  intro l
  induction l with
  | nil => intro h; exact h
  | cons c cs ih =>
    intro h
    have h' : hasFence cs = false := by
      have := congrArg (fun b => b) h
      simp only [hasFence, Bool.or_eq_false_iff] at h
      exact h.2
    rw [List.dropWhile]
    cases p c with
    | true => exact ih h'
    | false => exact h

theorem dropTrail_eq_take : ∀ l : List Char, ∃ v, l = dropTrail l ++ v := by
  intro l
  induction l with
  | nil => exact ⟨[], rfl⟩
  | cons c cs ih =>
    obtain ⟨v, hv⟩ := ih
    rw [dropTrail]
    cases hd : dropTrail cs with
    | nil =>
      cases hsp : isPySpace c with
      | true => exact ⟨c :: cs, by simp⟩
      | false =>
        refine ⟨cs, ?_⟩
        simp
    | cons r rs =>
      refine ⟨v, ?_⟩
      rw [hd] at hv
      simp [hv]

theorem hasFence_append_left : ∀ u v : List Char, hasFence (u ++ v) = false → hasFence u = false := by
  intro u
  induction u with
  | nil => intro v _; rfl
  | cons c cs ih =>
    intro v h
    rw [List.cons_append,
      show hasFence (c :: (cs ++ v)) =
        (fence.isPrefixOf (c :: (cs ++ v)) || hasFence (cs ++ v)) from rfl,
      Bool.or_eq_false_iff] at h
    rw [show hasFence (c :: cs) = (fence.isPrefixOf (c :: cs) || hasFence cs) from rfl,
      Bool.or_eq_false_iff]
    refine ⟨?_, ih v h.2⟩
    cases hfb : fence.isPrefixOf (c :: cs) with
    | false => rfl
    | true =>
      exfalso
      have hext : fence.isPrefixOf ((c :: cs) ++ v) = true :=
        isPrefixOf_append_ext fence (c :: cs) v hfb
      rw [List.cons_append, h.1] at hext
      exact absurd hext (by simp)

theorem hasFence_pyStrip (l : List Char) (h : hasFence l = false) :
    hasFence (pyStrip l) = false := by
  unfold pyStrip
  have h1 : hasFence (l.dropWhile isPySpace) = false := hasFence_dropWhile isPySpace l h
  obtain ⟨v, hv⟩ := dropTrail_eq_take (l.dropWhile isPySpace)
  rw [hv] at h1
  exact hasFence_append_left _ v h1

theorem fence_isPrefixOf_of_fjson (s : List Char) (h : fjson.isPrefixOf s) :
    fence.isPrefixOf s := by
  rcases s with _ | ⟨a1, _ | ⟨a2, _ | ⟨a3, r⟩⟩⟩ <;>
    simp_all [fjson, fence, btChar, List.isPrefixOf]
  exact ⟨h.1, h.2.1, h.2.2.1⟩

theorem hasFJson_false_of_hasFence_false :
    ∀ l : List Char, hasFence l = false → hasFJson l = false := by
  intro l
  induction l with
  | nil => intro _; rfl
  | cons c cs ih =>
    intro h
    simp only [hasFence, Bool.or_eq_false_iff] at h
    show (fjson.isPrefixOf (c :: cs) || hasFJson cs) = false
    rw [Bool.or_eq_false_iff]
    refine ⟨?_, ih h.2⟩
    cases hfb : fjson.isPrefixOf (c :: cs) with
    | false => rfl
    | true =>
      exfalso
      have := fence_isPrefixOf_of_fjson (c :: cs) hfb
      rw [this] at h
      exact absurd h.1 (by simp)

/-- After the full cleaning pass of line 209, no fence marker remains. -/
theorem cleanText_fence_free (s : List Char) :
    hasFence (cleanText s) = false ∧ hasFJson (cleanText s) = false := by
  have h1 : hasFence (pyReplaceDel fence (pyReplaceDel fjson s)) = false :=
    (prd_fence_clean (pyReplaceDel fjson s).length (pyReplaceDel fjson s) le_rfl).1
  have h2 : hasFence (cleanText s) = false := by
    unfold cleanText
    exact hasFence_pyStrip _ h1
  exact ⟨h2, hasFJson_false_of_hasFence_false _ h2⟩

/-! ## The polling loop -/

theorem pollFirst_none_of_processing (st : Nat → String)
    (hall : ∀ n, st n = "PROCESSING") : ∀ fuel i, pollFirst st fuel i = none := by
  intro fuel
  induction fuel with
  | zero => intro i; simp only [pollFirst, if_pos (hall i)]
  | succ f ih =>
    intro i
    simp only [pollFirst, if_pos (hall i)]
    exact ih (i + 1)

theorem pollFirst_eq_some_iff (st : Nat → String) :
    ∀ fuel i n, pollFirst st fuel i = some n ↔
      (i ≤ n ∧ n ≤ i + fuel ∧ st n ≠ "PROCESSING" ∧
        ∀ k, i ≤ k → k < n → st k = "PROCESSING") := by
  intro fuel
  induction fuel with
  | zero =>
    intro i n
    simp only [pollFirst]
    by_cases h : st i = "PROCESSING"
    · rw [if_pos h]
      constructor
      · intro hcon; exact absurd hcon (by simp)
      · rintro ⟨h1, h2, h3, -⟩
        have hn : n = i := by omega
        exact absurd (hn ▸ h) h3
    · rw [if_neg h]
      constructor
      · intro he
        injection he with he
        subst he
        exact ⟨le_refl i, by omega, h, fun k hk1 hk2 => by omega⟩
      · rintro ⟨h1, h2, -, -⟩
        have hn : n = i := by omega
        rw [hn]
  | succ f ih =>
    intro i n
    simp only [pollFirst]
    by_cases h : st i = "PROCESSING"
    · rw [if_pos h, ih (i + 1) n]
      constructor
      · rintro ⟨h1, h2, h3, h4⟩
        refine ⟨by omega, by omega, h3, ?_⟩
        intro k hk1 hk2
        rcases Nat.eq_or_lt_of_le hk1 with he | hl
        · exact he ▸ h
        · exact h4 k (by omega) hk2
      · rintro ⟨h1, h2, h3, h4⟩
        refine ⟨?_, by omega, h3, fun k hk1 hk2 => h4 k (by omega) hk2⟩
        rcases Nat.eq_or_lt_of_le h1 with he | hl
        · exact absurd (he ▸ h) h3
        · omega
    · rw [if_neg h]
      constructor
      · intro he
        injection he with he
        subst he
        exact ⟨le_refl i, by omega, h, fun k hk1 hk2 => by omega⟩
      · rintro ⟨h1, h2, h3, h4⟩
        by_cases hn : n = i
        · rw [hn]
        · exact absurd (h4 i (le_refl i) (by omega)) h

theorem pollEvents_succ (n : Nat) :
    pollEvents (n + 1) = Event.sleep 2 :: Event.getState :: pollEvents n := by
  simp [pollEvents, List.replicate_succ]

/-- Shape predicates used to state the normalizer's fallback case
(`isinstance(data, dict) and "clips" in data`, `isinstance(data, list)`). -/
def isClipsDict : Json → Bool
  | Json.obj kvs => (dictGet kvs "clips").isSome
  | _ => false

def isJsonArray : Json → Bool
  | Json.arr _ => true
  | _ => false

/-- The full cleaning pipeline of line 209 gives the same result on a
markdown-fenced reply as on the bare reply. -/
theorem cleanText_fenced (x : List Char) :
    cleanText (fjson ++ x ++ fence) = cleanText x := by
  unfold cleanText
  have h1 : pyReplaceDel fjson (fjson ++ x ++ fence) = pyReplaceDel fjson x ++ fence := by
    rw [List.append_assoc,
      prd_pos fjson (fjson ++ (x ++ fence)) (by decide)
        (isPrefixOf_append_ext fjson fjson (x ++ fence) (by decide)),
      show fjson.length = 7 from rfl,
      drop_append_of_le 7 fjson (x ++ fence) (by decide),
      show fjson.drop 7 = ([] : List Char) from rfl,
      List.nil_append]
    exact prd_fjson_append x
  rw [h1, prd_fence_append (pyReplaceDel fjson x)]

/-! ## Scratch-file lifecycle lemmas -/

theorem uploadBranch_disk_of_some (env : Env) (fuel : Nat)
    (h : (uploadBranch env fuel).result.isSome = true) :
    (uploadBranch env fuel).tmpOnDisk = false := by
  cases hu : env.uploadResult with
  | error m => simp [uploadBranch, hu]
  | ok fh =>
    cases hpf : pollFirst env.stateAt fuel 0 with
    | none => simp [uploadBranch, hu, hpf] at h
    | some n =>
      by_cases hf : env.stateAt n = "FAILED" <;> simp [uploadBranch, hu, hpf, hf]

theorem afterPart_disk (env : Env) (part : ContentPart) (tr : List Event) (disk : Bool) :
    (afterPart env part tr disk).tmpOnDisk = disk := by
  cases hg : env.genResult part with
  | error m => simp [afterPart, hg]
  | ok t =>
    cases hn : normalizeText t.data with
    | error m => simp [afterPart, hg, hn]
    | ok clips => simp [afterPart, hg, hn]

theorem analyzeInner_tmp_of_some (env : Env) (req : AnalyzeRequest) (fuel : Nat)
    (h : (analyzeInner env req fuel).result.isSome = true) :
    (analyzeInner env req fuel).tmpOnDisk = false := by
  cases hsel : selectTransport req with
  | uri u => simp [analyzeInner, hsel, afterPart_disk]
  | upload b =>
    cases hdec : env.decodeResult with
    | error m => simp [analyzeInner, hsel, hdec]
    | ok bytes =>
      cases hub : uploadBranch env fuel with
      | mk res tr disk =>
        cases res with
        | none => simp [analyzeInner, hsel, hdec, hub] at h
        | some e =>
          have hd : disk = false := by
            have hx := uploadBranch_disk_of_some env fuel (by rw [hub]; rfl)
            rw [hub] at hx
            exact hx
          cases e with
          | error e => simp [analyzeInner, hsel, hdec, hub, hd]
          | ok part => simp [analyzeInner, hsel, hdec, hub, afterPart_disk, hd]
  | missing => simp [analyzeInner, hsel]

/-! ## Concrete environments for witnesses and counterexamples -/

def fhDemo : FileHandle :=
  ⟨"files/abc123", "https://generativelanguage.googleapis.com/v1beta/files/abc123", "video/mp4"⟩

def envHappy : Env :=
  ⟨Except.ok [0, 1, 2], "/tmp/tmpa1b2c3.mp4", Except.ok fhDemo, fun _ => "ACTIVE", false,
   fun _ => Except.ok "\x7b\"clips\": []\x7d"⟩

def envHappyDelFail : Env :=
  ⟨Except.ok [0, 1, 2], "/tmp/tmpa1b2c3.mp4", Except.ok fhDemo, fun _ => "ACTIVE", true,
   fun _ => Except.ok "\x7b\"clips\": []\x7d"⟩

def envDecodeErr : Env :=
  ⟨Except.error "Invalid base64-encoded string: number of data characters (5) cannot be 1 more than a multiple of 4",
   "/tmp/tmpdec.mp4", Except.ok fhDemo, fun _ => "ACTIVE", false, fun _ => Except.ok "[]"⟩

def envFailedState : Env :=
  ⟨Except.ok [0], "/tmp/tmpfail.mp4", Except.ok fhDemo,
   fun n => if n < 2 then "PROCESSING" else "FAILED", false, fun _ => Except.ok "[]"⟩

def envGenErr : Env :=
  ⟨Except.ok [0], "/tmp/tmpgen.mp4", Except.ok fhDemo, fun _ => "ACTIVE", false,
   fun _ => Except.error "503 UNAVAILABLE: quota exceeded"⟩

def envBadReply : Env :=
  ⟨Except.ok [0], "/tmp/tmpbad.mp4", Except.ok fhDemo, fun _ => "ACTIVE", false,
   fun _ => Except.ok "not valid json"⟩

def reqB64 : AnalyzeRequest := ⟨none, some "AAAA"⟩

def reqUrl : AnalyzeRequest := ⟨some "https://youtu.be/dQw4w9WgXcQ", none⟩

def reqBoth : AnalyzeRequest := ⟨some "https://youtu.be/abc", some "AAAA"⟩

theorem pyTruthy_some (u : String) (h : u ≠ "") : pyTruthy (some u) = true := by
  simp only [pyTruthy]
  cases he : u.isEmpty
  · rfl
  · exact absurd ((String.isEmpty_iff u).mp he) h

/-! ## Claim theorems -/

/-- C1.  The claim says a request with neither `video_url` nor `video_base64`
gets HTTP 400.  In the code the `HTTPException(400)` raised on line 188 is
caught by the handler's own `except Exception` (line 219) and re-raised as an
HTTPException with status 500 whose detail is `str(e)`, so the observed status
is 500, not 400.  This theorem evaluates the handler at the failing input. -/
theorem analyze_missing_input_returns_500 :
    statusOf (analyze_video envHappy ⟨none, none⟩ 0) = some 500 ∧
      (analyze_video envHappy ⟨none, none⟩ 0).result
        = some (HttpOut.err 500 "400: Either video_url or video_base64 required") := by
  exact ⟨by decide, by decide⟩

/-- C2.  The claim (and the code's own comment on line 175) says the remote
upload and the scratch file are deleted after the inference call completes.
In the code both deletions (lines 173 and 177) happen before
`generate_content` (line 192): on a successful upload-branch run the
`deleteRemote` and `unlinkLocal` events strictly precede `generate`.
The third conjunct shows the remote-delete outcome is swallowed: the run is
identical whether or not `files.delete` fails. -/
theorem cleanup_precedes_inference :
    (analyze_video envHappy reqB64 1).trace
      = [Event.writeTmp "/tmp/tmpa1b2c3.mp4", Event.upload "/tmp/tmpa1b2c3.mp4",
         Event.mkUriRef "https://generativelanguage.googleapis.com/v1beta/files/abc123" "video/mp4",
         Event.unlinkLocal "/tmp/tmpa1b2c3.mp4", Event.deleteRemote "files/abc123",
         Event.generate] ∧
    List.indexOf (Event.deleteRemote "files/abc123") (analyze_video envHappy reqB64 1).trace
      < List.indexOf Event.generate (analyze_video envHappy reqB64 1).trace ∧
    analyze_video envHappyDelFail reqB64 1 = analyze_video envHappy reqB64 1 := by
  exact ⟨by decide, by decide, by decide⟩

/-- C3.  On every terminating run of the handler the scratch file is gone:
the success path unlinks it on line 173, and the `except` handler of
lines 181-185 unlinks it on the `FAILED` path and on any upload/polling
exception before re-raising. -/
theorem upload_branch_scratch_removed_on_exit (env : Env) (req : AnalyzeRequest) (fuel : Nat)
    (h : (analyze_video env req fuel).result.isSome = true) :
    (analyze_video env req fuel).tmpOnDisk = false := by
  cases hai : analyzeInner env req fuel with
  | mk res tr disk =>
    have hd : res.isSome = true → disk = false := by
      intro hr
      have hx := analyzeInner_tmp_of_some env req fuel (by rw [hai]; exact hr)
      rw [hai] at hx
      exact hx
    cases res with
    | none => simp [analyze_video, hai] at h
    | some e =>
      cases e with
      | ok clips => simp [analyze_video, hai, hd rfl]
      | error e => simp [analyze_video, hai, hd rfl]

theorem upload_branch_scratch_removed_on_exit_witness :
    (analyze_video envFailedState reqB64 5).result.isSome = true ∧
      (analyze_video envFailedState reqB64 5).tmpOnDisk = false :=
  ⟨by decide, upload_branch_scratch_removed_on_exit envFailedState reqB64 5 (by decide)⟩

/-- C4.  Every failure of kinds (b)-(e) — base64 decode error, the terminal
`"FAILED"` polling state, a provider call failure, a parse/validation
failure — reaches the outermost `except Exception` handler and becomes an
HTTP 500 whose detail is the error's `str()`.  (For the `FAILED` case the
raised error is `HTTPException(500, "Video processing failed")`, whose
`str()` is `"500: Video processing failed"`.) -/
theorem pipeline_failures_become_500_with_error_text :
    (∀ (env : Env) (req : AnalyzeRequest) (fuel : Nat) (b m : String),
        selectTransport req = Transport.upload b →
        env.decodeResult = Except.error m →
        (analyze_video env req fuel).result = some (HttpOut.err 500 m)) ∧
    (∀ (env : Env) (req : AnalyzeRequest) (fuel : Nat) (b : String) (bytes : List Nat)
        (fh : FileHandle) (n : Nat),
        selectTransport req = Transport.upload b →
        env.decodeResult = Except.ok bytes →
        env.uploadResult = Except.ok fh →
        pollFirst env.stateAt fuel 0 = some n →
        env.stateAt n = "FAILED" →
        (analyze_video env req fuel).result
          = some (HttpOut.err 500 (PyErr.str (PyErr.http 500 "Video processing failed")))) ∧
    (∀ (env : Env) (req : AnalyzeRequest) (fuel : Nat) (u m : String),
        selectTransport req = Transport.uri u →
        env.genResult ⟨u, "video/mp4"⟩ = Except.error m →
        (analyze_video env req fuel).result = some (HttpOut.err 500 m)) ∧
    (∀ (env : Env) (req : AnalyzeRequest) (fuel : Nat) (u t m : String),
        selectTransport req = Transport.uri u →
        env.genResult ⟨u, "video/mp4"⟩ = Except.ok t →
        normalizeText t.data = Except.error m →
        (analyze_video env req fuel).result = some (HttpOut.err 500 m)) := by
  refine ⟨?_, ?_, ?_, ?_⟩
  · intro env req fuel b m hsel hdec
    simp [analyze_video, analyzeInner, hsel, hdec, PyErr.str]
  · intro env req fuel b bytes fh n hsel hdec hup hpoll hfail
    simp [analyze_video, analyzeInner, uploadBranch, hsel, hdec, hup, hpoll, hfail]
  · intro env req fuel u m hsel hgen
    simp [analyze_video, analyzeInner, afterPart, hsel, hgen, PyErr.str]
  · intro env req fuel u t m hsel hgen hnorm
    simp [analyze_video, analyzeInner, afterPart, hsel, hgen, hnorm, PyErr.str]

theorem pipeline_failures_become_500_with_error_text_witness :
    (analyze_video envDecodeErr reqB64 0).result
      = some (HttpOut.err 500 "Invalid base64-encoded string: number of data characters (5) cannot be 1 more than a multiple of 4") ∧
    (analyze_video envFailedState reqB64 5).result
      = some (HttpOut.err 500 (PyErr.str (PyErr.http 500 "Video processing failed"))) ∧
    (analyze_video envGenErr reqUrl 0).result
      = some (HttpOut.err 500 "503 UNAVAILABLE: quota exceeded") ∧
    (analyze_video envBadReply reqUrl 0).result
      = some (HttpOut.err 500 "Expecting value") :=
  ⟨pipeline_failures_become_500_with_error_text.1 envDecodeErr reqB64 0 "AAAA" _ (by decide) rfl,
   pipeline_failures_become_500_with_error_text.2.1 envFailedState reqB64 5 "AAAA" [0] fhDemo 2
     (by decide) rfl rfl (by decide) (by decide),
   pipeline_failures_become_500_with_error_text.2.2.1 envGenErr reqUrl 0
     "https://youtu.be/dQw4w9WgXcQ" _ (by decide) rfl,
   pipeline_failures_become_500_with_error_text.2.2.2 envBadReply reqUrl 0
     "https://youtu.be/dQw4w9WgXcQ" "not valid json" _ (by decide) rfl (by decide)⟩

/-- C5.  The polling loop has no retry bound or timeout: if every state is
`"PROCESSING"` it returns `none` for every fuel (it never exits); it returns
`some n` exactly when `n` is the first index whose state is not
`"PROCESSING"` (and the fuel reaches it); each iteration is one fixed
`sleep 2` followed by one re-query; and a forever-processing provider leaves
the whole handler unterminated. -/
theorem polling_loop_fixed_interval_unbounded :
    (∀ st : Nat → String, (∀ n, st n = "PROCESSING") →
        ∀ fuel i, pollFirst st fuel i = none) ∧
    (∀ (st : Nat → String) (fuel n : Nat),
        pollFirst st fuel 0 = some n ↔
          (n ≤ fuel ∧ st n ≠ "PROCESSING" ∧ ∀ k, k < n → st k = "PROCESSING")) ∧
    (∀ n, (pollEvents n).count (Event.sleep 2) = n ∧
        ∀ e ∈ pollEvents n, e = Event.sleep 2 ∨ e = Event.getState) ∧
    (∀ (env : Env) (req : AnalyzeRequest) (fuel : Nat) (b : String)
        (bytes : List Nat) (fh : FileHandle),
        selectTransport req = Transport.upload b →
        env.decodeResult = Except.ok bytes →
        env.uploadResult = Except.ok fh →
        (∀ n, env.stateAt n = "PROCESSING") →
        (analyze_video env req fuel).result = none) := by
  refine ⟨pollFirst_none_of_processing, ?_, ?_, ?_⟩
  · intro st fuel n
    rw [pollFirst_eq_some_iff st fuel 0 n]
    constructor
    · rintro ⟨-, h2, h3, h4⟩
      exact ⟨by omega, h3, fun k hk => h4 k (Nat.zero_le k) hk⟩
    · rintro ⟨h2, h3, h4⟩
      exact ⟨Nat.zero_le n, by omega, h3, fun k _ hk => h4 k hk⟩
  · intro n
    induction n with
    | zero =>
      refine ⟨by decide, ?_⟩
      intro e he
      simp [pollEvents] at he
    | succ k ih =>
      constructor
      · rw [pollEvents_succ]
        simp [List.count_cons, ih.1]
      · intro e he
        rw [pollEvents_succ] at he
        simp only [List.mem_cons] at he
        rcases he with rfl | rfl | he
        · exact Or.inl rfl
        · exact Or.inr rfl
        · exact ih.2 e he
  · intro env req fuel b bytes fh hsel hdec hup hall
    have hpf := pollFirst_none_of_processing env.stateAt hall fuel 0
    simp [analyze_video, analyzeInner, uploadBranch, hsel, hdec, hup, hpf]

theorem polling_loop_fixed_interval_unbounded_witness :
    pollFirst (fun _ => "PROCESSING") 1000 0 = none ∧
      (pollFirst (fun n => if n < 2 then "PROCESSING" else "ACTIVE") 5 0 = some 2 ↔
        (2 ≤ 5 ∧ (if 2 < 2 then "PROCESSING" else "ACTIVE") ≠ "PROCESSING" ∧
          ∀ k, k < 2 → (if k < 2 then "PROCESSING" else "ACTIVE") = "PROCESSING")) ∧
      (analyze_video
        ⟨Except.ok [0], "/tmp/tmpw.mp4", Except.ok fhDemo, fun _ => "PROCESSING", false,
         fun _ => Except.ok "[]"⟩ reqB64 7).result = none :=
  ⟨polling_loop_fixed_interval_unbounded.1 (fun _ => "PROCESSING") (fun _ => rfl) 1000 0,
   polling_loop_fixed_interval_unbounded.2.1 (fun n => if n < 2 then "PROCESSING" else "ACTIVE") 5 2,
   polling_loop_fixed_interval_unbounded.2.2.2
     ⟨Except.ok [0], "/tmp/tmpw.mp4", Except.ok fhDemo, fun _ => "PROCESSING", false,
      fun _ => Except.ok "[]"⟩ reqB64 7 "AAAA" [0] fhDemo (by decide) rfl rfl (fun _ => rfl)⟩

/-- C6.  When `video_url` is truthy (even if `video_base64` is also present:
the URL check on line 135 comes first), the handler builds a content
reference from that URI with the fixed mime type `"video/mp4"` and performs
no scratch write, no upload and no polling: the whole trace is the URI
reference construction followed by the inference call, and the run always
terminates. -/
theorem url_branch_uri_ref_no_upload (env : Env) (req : AnalyzeRequest) (fuel : Nat)
    (u : String) (hu : req.video_url = some u) (hne : u ≠ "") :
    (analyze_video env req fuel).trace = [Event.mkUriRef u "video/mp4", Event.generate] ∧
      (analyze_video env req fuel).tmpOnDisk = false ∧
      (analyze_video env req fuel).result.isSome = true := by
  have hsel : selectTransport req = Transport.uri u := by
    simp [selectTransport, hu, pyTruthy_some u hne]
  cases hg : env.genResult ⟨u, "video/mp4"⟩ with
  | error m => simp [analyze_video, analyzeInner, afterPart, hsel, hg]
  | ok t =>
    cases hn : normalizeText t.data with
    | error m => simp [analyze_video, analyzeInner, afterPart, hsel, hg, hn]
    | ok clips => simp [analyze_video, analyzeInner, afterPart, hsel, hg, hn]

theorem url_branch_uri_ref_no_upload_witness :
    reqBoth.video_url = some "https://youtu.be/abc" ∧
      (analyze_video envHappy reqBoth 0).trace
        = [Event.mkUriRef "https://youtu.be/abc" "video/mp4", Event.generate] :=
  ⟨rfl, (url_branch_uri_ref_no_upload envHappy reqBoth 0 "https://youtu.be/abc" rfl
    (by decide)).1⟩

/-- C7.  The normalizer (lines 212-217): a parsed mapping containing
`"clips"` yields that key's value (coerced to clips); a parsed sequence is
used directly; any other parsed value yields the empty clip list without
raising; and the documented reply round-trips to exactly one clip. -/
theorem normalizer_dispatch_roundtrip :
    (∀ (kvs : List (String × Json)) (v : Json), dictGet kvs "clips" = some v →
        normalizeParsed (Json.obj kvs) = coerceClips v) ∧
    (∀ l : List Json, normalizeParsed (Json.arr l) = coerceClips (Json.arr l)) ∧
    (∀ j : Json, isClipsDict j = false → isJsonArray j = false →
        normalizeParsed j = Except.ok []) ∧
    normalizeText (("\x7b\"clips\": [\x7b\"start\":\"00:01:02\",\"end\":\"00:01:30\",\"description\":\"x\"\x7d]\x7d").data)
      = Except.ok [⟨"00:01:02", "00:01:30", "x"⟩] := by
  refine ⟨?_, fun l => rfl, ?_, by decide⟩
  · intro kvs v h
    show (match dictGet kvs "clips" with
      | some v => coerceClips v
      | none => Except.ok []) = coerceClips v
    rw [h]
  · intro j h1 h2
    cases j with
    | obj kvs =>
      cases hd : dictGet kvs "clips" with
      | some v => simp [isClipsDict, hd] at h1
      | none => simp [normalizeParsed, hd]
    | arr l => simp [isJsonArray] at h2
    | null => rfl
    | bool b => rfl
    | num n => rfl
    | str s => rfl

theorem normalizer_dispatch_roundtrip_witness :
    normalizeParsed (Json.obj [("clips", Json.arr [])]) = coerceClips (Json.arr []) ∧
      normalizeParsed (Json.str "no clips here") = Except.ok [] :=
  ⟨normalizer_dispatch_roundtrip.1 [("clips", Json.arr [])] (Json.arr []) rfl,
   normalizer_dispatch_roundtrip.2.2.1 (Json.str "no clips here") rfl rfl⟩

/-- C8.  Wrapping any reply text in markdown fences (` ```json ` before,
` ``` ` after) normalizes to exactly the same result as the bare text:
stage one of line 209 strips the leading `"```json"` and cannot match across
the trailing fence, and stage two absorbs the trailing `"```"`. -/
theorem fenced_reply_normalizes_identically (x : List Char) :
    normalizeText (("```json").data ++ x ++ ("```").data) = normalizeText x := by
  have h1 : ("```json").data = fjson := by decide
  have h2 : ("```").data = fence := by decide
  rw [h1, h2]
  unfold normalizeText
  rw [cleanText_fenced x]

/-- C9.  The presence checks use Python string truthiness, so `""` counts as
absent: with `video_url = ""` and a nonempty `video_base64` the upload branch
is selected; with `video_url = ""` and no `video_base64` the request is
rejected as missing input (the line-188 rejection, surfaced through the
outer handler as a 500 carrying the 400 message — see C1). -/
theorem empty_string_fields_truthiness :
    (∀ b : String, b ≠ "" → selectTransport ⟨some "", some b⟩ = Transport.upload b) ∧
    selectTransport ⟨some "", none⟩ = Transport.missing ∧
    (∀ (env : Env) (fuel : Nat),
        (analyze_video env ⟨some "", none⟩ fuel).result
          = some (HttpOut.err 500 "400: Either video_url or video_base64 required")) := by
  refine ⟨?_, by decide, ?_⟩
  · intro b hb
    have h0 : pyTruthy (some "") = false := by decide
    simp [selectTransport, h0, pyTruthy_some b hb]
  · intro env fuel
    have hsel : selectTransport ⟨some "", none⟩ = Transport.missing := by decide
    simp only [analyze_video, analyzeInner, hsel]
    decide

theorem empty_string_fields_truthiness_witness :
    selectTransport ⟨some "", some "AAAA"⟩ = Transport.upload "AAAA" ∧
      (analyze_video envHappy ⟨some "", none⟩ 0).result
        = some (HttpOut.err 500 "400: Either video_url or video_base64 required") :=
  ⟨empty_string_fields_truthiness.1 "AAAA" (by decide),
   empty_string_fields_truthiness.2.2 envHappy 0⟩

/-- C10.  Fence stripping is a global substring replacement: after the
cleaning pass no occurrence of `"```"` (nor of `"```json"`) remains anywhere
in the text handed to `json.loads`, including occurrences that were inside
JSON string values.  Concretely, a reply whose description contains a fence
marker parses with the marker removed (altering the description), and the
raw reply did contain the marker. -/
theorem fence_removal_is_global :
    (∀ s : List Char, hasFence (cleanText s) = false) ∧
    (∀ s : List Char, hasFJson (cleanText s) = false) ∧
    normalizeText (("\x7b\"clips\":[\x7b\"start\":\"a\",\"end\":\"b\",\"description\":\"x ``` y\"\x7d]\x7d").data)
      = Except.ok [⟨"a", "b", "x  y"⟩] ∧
    hasFence (("\x7b\"clips\":[\x7b\"start\":\"a\",\"end\":\"b\",\"description\":\"x ``` y\"\x7d]\x7d").data)
      = true :=
  ⟨fun s => (cleanText_fence_free s).1, fun s => (cleanText_fence_free s).2,
   by decide, by decide⟩
